import Mathlib

set_option maxRecDepth 16000

/-!
Verification development for the duration-calculator program.

The program's core (file `src/main.rs`) parses duration expression strings
into `chrono::Duration` values, combines them with saturating arithmetic and
formats them back to text.  This file is a shallow embedding of that core:

* a `chrono::Duration` is modelled as an `Int` counting milliseconds; the
  representable range is `[-maxMs, maxMs]` where `maxMs` is `i64::MAX`
  (chrono's `TimeDelta::MAX` is `i64::MAX` milliseconds and `TimeDelta::MIN`
  is its negation);
* the two regex passes of `from_str` (the `LINE_PATTERN` gate
  `^(?:\s*[+-]\s*(?:\d+\s*(?:y|d|h|m|s)\s*)+)+$` and the
  `DURATION_COMPOSITE_PATTERN` / `DURATION_PATTERN` extraction) are embedded
  as one deterministic left-to-right scanner over the character list.  On
  this grammar the regexes are deterministic (a digit run can only extend,
  whitespace can only be skipped, a unit must follow its count), so the
  scanner accepts exactly the lines the gate accepts and extracts exactly
  the `(sign, terms)` captures, in order of appearance.  The character
  classes `\d` and `\s` are modelled by their ASCII fragments
  (`[0-9]` and `[ \t\n\x0B\x0C\r]`); the regex crate's defaults are the
  Unicode classes (`\p{Nd}` and White_Space), which coincide with the
  ASCII fragments on every ASCII input, the domain on which the embedded
  scanner is exact.  Off ASCII the real program can diverge from the
  model: a non-ASCII decimal digit passes the real gate's `\d` but then
  panics in `i64::from_str`, which accepts only ASCII digits, so the one
  totality statement affected carries an explicit ASCII hypothesis;
* code that panics (the `i64::from_str(..).unwrap()` count conversion and
  the range asserts inside `chrono`'s `Duration::days/hours/minutes/seconds`
  constructors) is modelled by an explicit `panicked` outcome;
* the `365 * count` multiplication for the `y` unit is `i64` arithmetic;
  its overflow is modelled with release-build (two's-complement wrapping)
  semantics via `wrap64`.
-/

/-- Magnitude bound of a `chrono` duration, in milliseconds: `i64::MAX`
(`TimeDelta::MAX` is `i64::MAX` milliseconds; `TimeDelta::MIN` is its
negation). -/
def maxMs : Int := 9223372036854775807

/-- The `Duration::MAX` sentinel, in milliseconds. -/
def durationMAX : Int := maxMs

/-- The `Duration::MIN` sentinel, in milliseconds. -/
def durationMIN : Int := -maxMs

/-- Largest value of Rust `i64`; `i64::from_str` errors beyond it. -/
def i64Max : Int := 9223372036854775807

/-- chrono `Duration::checked_add`: `None` when the sum leaves the
representable range. -/
def checked_add (a b : Int) : Option Int :=
  if -maxMs ≤ a + b ∧ a + b ≤ maxMs then some (a + b) else none

/-- chrono `Duration::checked_sub`: `None` when the difference leaves the
representable range. -/
def checked_sub (a b : Int) : Option Int :=
  if -maxMs ≤ a - b ∧ a - b ≤ maxMs then some (a - b) else none

/-- The source's `saturated_add`: `self.checked_add(rhs).unwrap_or(Duration::MAX)`. -/
def saturated_add (a b : Int) : Int := (checked_add a b).getD durationMAX

/-- The source's `saturated_sub`: `self.checked_sub(rhs).unwrap_or(Duration::MIN)`. -/
def saturated_sub (a b : Int) : Int := (checked_sub a b).getD durationMIN

/-- Construction of a whole-millisecond `chrono` duration; `none` models the
panic of the `Duration::days/hours/minutes/seconds` constructors when the
value is outside the representable range.  (For whole seconds the chrono
bound `[MIN, MAX]` coincides with `|ms| ≤ maxMs`.) -/
def mkMs (ms : Int) : Option Int :=
  if -maxMs ≤ ms ∧ ms ≤ maxMs then some ms else none

/-- Model of `Duration::days(n)`, in milliseconds. -/
def durDays (n : Int) : Option Int := mkMs (n * 86400000)

/-- Model of `Duration::hours(n)`, in milliseconds. -/
def durHours (n : Int) : Option Int := mkMs (n * 3600000)

/-- Model of `Duration::minutes(n)`, in milliseconds. -/
def durMinutes (n : Int) : Option Int := mkMs (n * 60000)

/-- Model of `Duration::seconds(n)`, in milliseconds. -/
def durSeconds (n : Int) : Option Int := mkMs (n * 1000)

/-- Two's-complement wrapping of an integer into the `i64` range (release
build semantics of the `365 * count` multiplication). -/
def wrap64 (x : Int) : Int :=
  (x + 9223372036854775808) % 18446744073709551616 - 9223372036854775808

/-- Wrap an `Option Int` duration-constructor result into a panic-aware
result: `.error ()` records the constructor's out-of-range panic. -/
def liftPanic : Option Int → Except Unit (Option Int)
  | some d => .ok (some d)
  | none => .error ()

/-- The source's `token_to_duration`.  The unit is a single character:
on lines that passed the `LINE_PATTERN` gate the extraction regex can only
capture the units `y d h m s` (its `min` alternative is unreachable there,
both because `m` is tried first and because a gated line contains no `i`).
`.ok none` is the source's `None` arm for an unrecognized unit; `.error ()`
records a panic inside a chrono constructor. -/
def token_to_duration (count : Int) (unit : Char) : Except Unit (Option Int) :=
  match unit with
  | 'y' => liftPanic (durDays (wrap64 (365 * count)))
  | 'd' => liftPanic (durDays count)
  | 'h' => liftPanic (durHours count)
  | 'm' => liftPanic (durMinutes count)
  | 's' => liftPanic (durSeconds count)
  | _ => .ok none

/-- ASCII fragment of the regex class `\d`.  The regex crate's `\d` is
the Unicode class `\p{Nd}`; the two coincide on ASCII input.  A
non-ASCII decimal digit that the real gate accepts later panics in
`i64::from_str`, which accepts only ASCII digits. -/
def isDigitChar (c : Char) : Bool := 48 ≤ c.toNat && c.toNat ≤ 57

/-- ASCII fragment of the regex class `\s` (the regex crate's `\s` is
Unicode White_Space; the two coincide on ASCII input). -/
def isWsChar (c : Char) : Bool :=
  c = ' ' || c = '\t' || c = '\n' || c = '\x0B' || c = '\x0C' || c = '\r'

/-- The sign alternation `[+-]` of the patterns. -/
def isSignChar (c : Char) : Bool := c = '+' || c = '-'

/-- The unit alternation `(?:y|d|h|m|s)` of the line pattern. -/
def isUnitChar (c : Char) : Bool :=
  c = 'y' || c = 'd' || c = 'h' || c = 'm' || c = 's'

/-- Numeric value of an ASCII digit character. -/
def charVal (c : Char) : Nat := c.toNat - 48

/-- One `(count, unit)` capture of `DURATION_PATTERN`. -/
abbrev Term := Nat × Char

/-- One `(sign, run of terms)` capture of `DURATION_COMPOSITE_PATTERN`;
the `Bool` is `true` for a `-` sign. -/
abbrev SGroup := Bool × List Term

/-- Positions of the scanner inside the line grammar
`^(?:\s*[+-]\s*(?:\d+\s*(?:y|d|h|m|s)\s*)+)+$`:
`s0` before a leading sign (inside the first `\s*`), `s1` after a sign
(inside the `\s*` before the first count), `s2` inside a digit run,
`s3` between a count and its unit (inside `\d+\s*`), `s4` after a unit
(inside the trailing `\s*`, where a new term, a new group or the end of
the line may follow). -/
inductive ScanState
  | s0 | s1 | s2 | s3 | s4
deriving DecidableEq

/-- Deterministic scanner implementing the `LINE_PATTERN` gate while
extracting the `(sign, terms)` captures that the
`DURATION_COMPOSITE_PATTERN` / `DURATION_PATTERN` passes deliver on a gated
line.  `gs` holds the completed groups (reversed), `sgn`/`ts` the sign and
(reversed) terms of the open group, `cnt` the digit run read so far.
`none` means the line fails the gate. -/
def scan (st : ScanState) (gs : List SGroup) (sgn : Bool) (ts : List Term)
    (cnt : Nat) : List Char → Option (List SGroup)
  | [] =>
    match st with
    | .s4 => some (((sgn, ts.reverse) :: gs).reverse)
    | _ => none
  | c :: cs =>
    match st with
    | .s0 =>
      if isWsChar c then scan .s0 gs sgn ts cnt cs
      else if isSignChar c then scan .s1 gs (c = '-') [] cnt cs
      else none
    | .s1 =>
      if isWsChar c then scan .s1 gs sgn ts cnt cs
      else if isDigitChar c then scan .s2 gs sgn ts (charVal c) cs
      else none
    | .s2 =>
      if isDigitChar c then scan .s2 gs sgn ts (cnt * 10 + charVal c) cs
      else if isWsChar c then scan .s3 gs sgn ts cnt cs
      else if isUnitChar c then scan .s4 gs sgn ((cnt, c) :: ts) 0 cs
      else none
    | .s3 =>
      if isWsChar c then scan .s3 gs sgn ts cnt cs
      else if isUnitChar c then scan .s4 gs sgn ((cnt, c) :: ts) 0 cs
      else none
    | .s4 =>
      if isWsChar c then scan .s4 gs sgn ts cnt cs
      else if isDigitChar c then scan .s2 gs sgn ts (charVal c) cs
      else if isSignChar c then scan .s1 ((sgn, ts.reverse) :: gs) (c = '-') [] 0 cs
      else none

/-- Gate-and-extract pass over a whole line. -/
def scanGroups (cs : List Char) : Option (List SGroup) :=
  scan .s0 [] false [] 0 cs

/-- One term of the inner extraction loop: the `i64::from_str(..).unwrap()`
count conversion (panics beyond `i64::MAX`), `token_to_duration`, and the
sign combination `operator_function(&duration, &d)` with its per-term
fallback `None => d`.  The source's `None => duration` arm keeps the
running value when the unit is unrecognized. -/
def evalTok (isNeg : Bool) (duration : Int) (count : Nat) (unit : Char) :
    Except Unit Int :=
  if i64Max < (count : Int) then .error ()
  else
    match token_to_duration (count : Int) unit with
    | .error _ => .error ()
    | .ok none => .ok duration
    | .ok (some d) =>
      .ok (match (if isNeg then checked_sub duration d else checked_add duration d) with
           | some dd => dd
           | none => d)

/-- Inner loop of `from_str` over the `DURATION_PATTERN` captures of one
composite group. -/
def evalTerms (isNeg : Bool) (duration : Int) : List Term → Except Unit Int
  | [] => .ok duration
  | (n, u) :: ts =>
    match evalTok isNeg duration n u with
    | .error e => .error e
    | .ok d2 => evalTerms isNeg d2 ts

/-- Outer loop of `from_str` over the `DURATION_COMPOSITE_PATTERN`
captures; the running `duration` is threaded across all groups. -/
def evalGroups (duration : Int) : List SGroup → Except Unit Int
  | [] => .ok duration
  | (isNeg, ts) :: gs =>
    match evalTerms isNeg duration ts with
    | .error e => .error e
    | .ok d2 => evalGroups d2 gs

/-- Result of `Duration::from_str`: a parsed value, the `None` of a failed
`LINE_PATTERN` gate (the `InvalidExpression` error), or a panic raised
while converting a count or building a term duration. -/
inductive ParseResult
  | ok (d : Int)
  | invalid
  | panicked
deriving DecidableEq

/-- The sign normalization of `from_str`: a line whose first character is
not `+` or `-` gets an implicit leading `+`. -/
def normalizeSign (cs : List Char) : List Char :=
  match cs with
  | c :: _ => if isSignChar c then cs else '+' :: cs
  | [] => '+' :: cs

/-- Comment stripping, `line.split('#').next().unwrap()`: everything
before the first `#`. -/
def stripComment : List Char → List Char
  | [] => []
  | c :: cs => if c = '#' then [] else c :: stripComment cs

/-- The source's `Duration::from_str`: empty input parses to zero;
otherwise the input is sign-normalized, stripped at the first `#`,
gated by `LINE_PATTERN`, and the extracted groups are folded into a
duration starting from zero. -/
def from_str (input : String) : ParseResult :=
  if input.data = [] then .ok 0
  else
    let line := stripComment (normalizeSign input.data)
    match scanGroups line with
    | none => .invalid
    | some gs =>
      match evalGroups 0 gs with
      | .ok d => .ok d
      | .error _ => .panicked

/-- Decimal digit list of a natural number (fuel-indexed helper; the fuel
`n + 1` always suffices). -/
def natCharsAux : Nat → Nat → List Char
  | 0, _ => []
  | f + 1, n =>
    if n < 10 then [Nat.digitChar n]
    else natCharsAux f (n / 10) ++ [Nat.digitChar (n % 10)]

/-- Decimal digit list of a natural number (Rust `{}` on a nonnegative
integer). -/
def natChars (n : Nat) : List Char := natCharsAux (n + 1) n

/-- Rust `{}` formatting of an `i64`. -/
def intChars (i : Int) : List Char :=
  if i < 0 then '-' :: natChars i.natAbs else natChars i.natAbs

/-- Rust `{:02}` formatting of an `i64`: zero-padded to width two. -/
def pad2 (i : Int) : List Char :=
  if (intChars i).length < 2 then '0' :: intChars i else intChars i

/-- chrono `num_seconds`: whole seconds of a millisecond duration,
truncated toward zero (Rust integer division semantics). -/
def num_seconds (ms : Int) : Int := ms.tdiv 1000

/-- The `Display` implementation of `DisplayableDuration(duration, compact)`.
The source computes `sgn` by `Duration::zero().cmp(&d)`, mapping
`Ordering::Greater` (that is, `0 > d`) to `-1` and everything else to `1`;
then `n = sgn * d.num_seconds()` is split by `/ 3600`, `% 3600 / 60` and
`% 60` (all Rust truncating division, `Int.tdiv`/`Int.tmod` here) and
rendered as `{sgn}{hours}h{minutes:02}m{seconds:02}s` with a space after
`h` and `m` exactly when `compact` is false. -/
def fmtDuration (ms : Int) (compact : Bool) : String :=
  let sgn : Int := if 0 > ms then -1 else 1
  let n := sgn * num_seconds ms
  let hours := n.tdiv 3600
  let minutes := (n.tmod 3600).tdiv 60
  let seconds := n.tmod 60
  let sign : List Char := if sgn < 0 then ['-'] else []
  let sep : List Char := if compact then [] else [' ']
  String.mk (sign ++ intChars hours ++ 'h' :: sep ++ pad2 minutes ++ 'm' ::
    sep ++ pad2 seconds ++ 's' :: [])

/-! ### Helper definitions for the proofs -/

/-- Value of a digit string continued from an accumulator, exactly the way
the scanner's `cnt` accumulator (and Rust's decimal `from_str`) folds
digits. -/
def valAux (acc : Nat) : List Char → Nat
  | [] => acc
  | c :: cs => valAux (acc * 10 + charVal c) cs

/-- Two-digit zero-padded decimal rendering of a natural number below 100
(the `Nat` view of `pad2`). -/
def pad2N (m : Nat) : List Char :=
  if m < 10 then '0' :: natChars m else natChars m

/-- Every duration the parser's evaluation loop can produce is a whole
number of seconds inside the whole-second part of the representable
range. -/
def wholeOk (d : Int) : Prop :=
  1000 ∣ d ∧ -9223372036854775000 ≤ d ∧ d ≤ 9223372036854775000

/-- Canonical character body `{h}h {mm}m {ss}s` produced by the formatter
for a magnitude of `k` whole seconds (`sep` is empty in compact mode and a
single space otherwise). -/
def fmtBody (k : Nat) (sep : List Char) : List Char :=
  natChars (k / 3600) ++ 'h' :: (sep ++ (pad2N (k % 3600 / 60) ++ 'm' ::
    (sep ++ (pad2N (k % 60) ++ ['s']))))

/-- The spec's single-term mapping table (one duration value per unit
code, in milliseconds): y = 365 days, d = 1 day, h = 1 hour, m = 1 minute,
s = 1 second.  Stated separately from `token_to_duration` so that parsing
can be compared against the table. -/
def unitMs : Char → Int
  | 'y' => 31536000000
  | 'd' => 86400000
  | 'h' => 3600000
  | 'm' => 60000
  | 's' => 1000
  | _ => 0

/-! ### Character-class facts -/

theorem ws_not_digit {c : Char} (h : isWsChar c = true) : isDigitChar c = false := by
  simp only [isWsChar, Bool.or_eq_true, decide_eq_true_eq] at h
  rcases h with (((((h | h) | h) | h) | h) | h) <;> subst h <;> decide

theorem digit_not_ws {c : Char} (h : isDigitChar c = true) : isWsChar c = false := by
  cases hw : isWsChar c
  · rfl
  · rw [ws_not_digit hw] at h; cases h

theorem unit_not_digit {c : Char} (h : isUnitChar c = true) : isDigitChar c = false := by
  simp only [isUnitChar, Bool.or_eq_true, decide_eq_true_eq] at h
  rcases h with ((((h | h) | h) | h) | h) <;> subst h <;> decide

theorem unit_not_ws {c : Char} (h : isUnitChar c = true) : isWsChar c = false := by
  simp only [isUnitChar, Bool.or_eq_true, decide_eq_true_eq] at h
  rcases h with ((((h | h) | h) | h) | h) <;> subst h <;> decide

theorem sign_not_ws {c : Char} (h : isSignChar c = true) : isWsChar c = false := by
  simp only [isSignChar, Bool.or_eq_true, decide_eq_true_eq] at h
  rcases h with (h | h) <;> subst h <;> decide

theorem sign_not_digit {c : Char} (h : isSignChar c = true) : isDigitChar c = false := by
  simp only [isSignChar, Bool.or_eq_true, decide_eq_true_eq] at h
  rcases h with (h | h) <;> subst h <;> decide

theorem ws_not_sign {c : Char} (h : isWsChar c = true) : isSignChar c = false := by
  simp only [isWsChar, Bool.or_eq_true, decide_eq_true_eq] at h
  rcases h with (((((h | h) | h) | h) | h) | h) <;> subst h <;> decide

theorem digit_ne_hash {c : Char} (h : isDigitChar c = true) : c ≠ '#' := by
  intro he; subst he; cases h

theorem unit_ne_hash {c : Char} (h : isUnitChar c = true) : c ≠ '#' := by
  simp only [isUnitChar, Bool.or_eq_true, decide_eq_true_eq] at h
  rcases h with ((((h | h) | h) | h) | h) <;> subst h <;> decide

theorem ws_ne_hash {c : Char} (h : isWsChar c = true) : c ≠ '#' := by
  simp only [isWsChar, Bool.or_eq_true, decide_eq_true_eq] at h
  rcases h with (((((h | h) | h) | h) | h) | h) <;> subst h <;> decide

theorem sign_ne_hash {c : Char} (h : isSignChar c = true) : c ≠ '#' := by
  simp only [isSignChar, Bool.or_eq_true, decide_eq_true_eq] at h
  rcases h with (h | h) <;> subst h <;> decide

/-! ### Decimal digit strings -/

theorem digitChar_isDigit {d : Nat} (h : d < 10) :
    isDigitChar (Nat.digitChar d) = true := by
  interval_cases d <;> decide

theorem charVal_digitChar {d : Nat} (h : d < 10) : charVal (Nat.digitChar d) = d := by
  interval_cases d <;> decide

theorem valAux_append (a : Nat) (l1 l2 : List Char) :
    valAux a (l1 ++ l2) = valAux (valAux a l1) l2 := by
  induction l1 generalizing a with
  | nil => rfl
  | cons c cs ih => exact ih (a * 10 + charVal c)

theorem natCharsAux_irrel : ∀ f g n, n < f → n < g →
    natCharsAux f n = natCharsAux g n := by
  intro f
  induction f with
  | zero => intro g n h; omega
  | succ f ih =>
    intro g n hf hg
    cases g with
    | zero => omega
    | succ g =>
      by_cases h10 : n < 10
      · simp [natCharsAux, h10]
      · have hdiv : n / 10 < n := Nat.div_lt_self (by omega) (by omega)
        simp only [natCharsAux, h10, if_false]
        rw [ih g (n / 10) (by omega) (by omega)]

theorem natChars_small {n : Nat} (h : n < 10) : natChars n = [Nat.digitChar n] := by
  simp [natChars, natCharsAux, h]

theorem natChars_big {n : Nat} (h : 10 ≤ n) :
    natChars n = natChars (n / 10) ++ [Nat.digitChar (n % 10)] := by
  have hdiv : n / 10 < n := Nat.div_lt_self (by omega) (by omega)
  have : natCharsAux (n + 1) n = natCharsAux n (n / 10) ++ [Nat.digitChar (n % 10)] := by
    simp [natCharsAux, Nat.not_lt.mpr h]
  rw [natChars, this, natCharsAux_irrel n (n / 10 + 1) (n / 10) (by omega) (by omega)]
  rfl

theorem natChars_ne_nil (n : Nat) : natChars n ≠ [] := by
  by_cases h : n < 10
  · rw [natChars_small h]; simp
  · rw [natChars_big (by omega)]; simp

theorem natChars_all_digits (n : Nat) : ∀ c ∈ natChars n, isDigitChar c = true := by
  induction n using Nat.strong_induction_on with
  | _ n ih =>
    by_cases h : n < 10
    · rw [natChars_small h]
      intro c hc
      rw [List.mem_singleton] at hc
      subst hc
      exact digitChar_isDigit h
    · rw [natChars_big (by omega)]
      intro c hc
      rcases List.mem_append.mp hc with hc | hc
      · exact ih (n / 10) (Nat.div_lt_self (by omega) (by omega)) c hc
      · rw [List.mem_singleton] at hc
        subst hc
        exact digitChar_isDigit (Nat.mod_lt n (by omega))

theorem valAux_natChars (n : Nat) : valAux 0 (natChars n) = n := by
  induction n using Nat.strong_induction_on with
  | _ n ih =>
    by_cases h : n < 10
    · rw [natChars_small h]
      have h0 : valAux 0 [Nat.digitChar n] = 0 * 10 + charVal (Nat.digitChar n) := rfl
      rw [h0, charVal_digitChar h]
      omega
    · rw [natChars_big (by omega), valAux_append,
        ih (n / 10) (Nat.div_lt_self (by omega) (by omega))]
      have h0 : valAux (n / 10) [Nat.digitChar (n % 10)] =
          n / 10 * 10 + charVal (Nat.digitChar (n % 10)) := rfl
      rw [h0, charVal_digitChar (Nat.mod_lt n (by omega))]
      omega

theorem natChars_length_one {n : Nat} (h : n < 10) : (natChars n).length = 1 := by
  rw [natChars_small h]; rfl

theorem natChars_length_two {n : Nat} (h1 : 10 ≤ n) (h2 : n < 100) :
    (natChars n).length = 2 := by
  rw [natChars_big h1]
  have : n / 10 < 10 := by omega
  simp [natChars_length_one this]

theorem pad2N_all_digits (m : Nat) : ∀ c ∈ pad2N m, isDigitChar c = true := by
  intro c hc
  unfold pad2N at hc
  by_cases h : m < 10
  · rw [if_pos h] at hc
    rcases List.mem_cons.mp hc with hc | hc
    · subst hc; decide
    · exact natChars_all_digits m c hc
  · rw [if_neg h] at hc
    exact natChars_all_digits m c hc

theorem pad2N_ne_nil (m : Nat) : pad2N m ≠ [] := by
  unfold pad2N
  by_cases h : m < 10
  · rw [if_pos h]; simp
  · rw [if_neg h]; exact natChars_ne_nil m

theorem valAux_pad2N (m : Nat) : valAux 0 (pad2N m) = m := by
  unfold pad2N
  by_cases h : m < 10
  · rw [if_pos h]
    have h0 : valAux 0 ('0' :: natChars m) = valAux (0 * 10 + charVal '0') (natChars m) := rfl
    have h1 : 0 * 10 + charVal '0' = 0 := by decide
    rw [h0, h1, valAux_natChars]
  · rw [if_neg h]; exact valAux_natChars m

theorem intChars_coe (n : Nat) : intChars (n : Int) = natChars n := by
  unfold intChars
  rw [if_neg (by omega : ¬ ((n : Int) < 0))]
  simp

theorem pad2_coe {m : Nat} (h : m < 100) : pad2 (m : Int) = pad2N m := by
  unfold pad2 pad2N
  simp only [intChars_coe]
  by_cases h10 : m < 10
  · rw [if_pos (by rw [natChars_length_one h10]; omega), if_pos h10]
  · rw [if_neg (by rw [natChars_length_two (by omega) h]; omega), if_neg h10]

/-! ### Scanner stepping facts -/

theorem valAux_cons_zero (c : Char) (ds : List Char) :
    valAux 0 (c :: ds) = valAux (charVal c) ds := by
  have h0 : valAux 0 (c :: ds) = valAux (0 * 10 + charVal c) ds := rfl
  rw [h0]
  congr 1
  omega

theorem scan_nil_s4 (gs : List SGroup) (sgn : Bool) (ts : List Term) (cnt : Nat) :
    scan .s4 gs sgn ts cnt [] = some (((sgn, ts.reverse) :: gs).reverse) := rfl

theorem scan_s0_sign {c : Char} (h : isSignChar c = true) (gs : List SGroup)
    (sgn : Bool) (ts : List Term) (cnt : Nat) (cs : List Char) :
    scan .s0 gs sgn ts cnt (c :: cs) = scan .s1 gs (c = '-') [] cnt cs := by
  simp [scan, sign_not_ws h, h]

theorem scan_s1_ws {c : Char} (h : isWsChar c = true) (gs : List SGroup)
    (sgn : Bool) (ts : List Term) (cnt : Nat) (cs : List Char) :
    scan .s1 gs sgn ts cnt (c :: cs) = scan .s1 gs sgn ts cnt cs := by
  simp [scan, h]

theorem scan_s1_stuck {c : Char} (h1 : isWsChar c = false) (h2 : isDigitChar c = false)
    (gs : List SGroup) (sgn : Bool) (ts : List Term) (cnt : Nat) (cs : List Char) :
    scan .s1 gs sgn ts cnt (c :: cs) = none := by
  simp [scan, h1, h2]

theorem scan_s2_digits {ds : List Char} (hds : ∀ c ∈ ds, isDigitChar c = true)
    (gs : List SGroup) (sgn : Bool) (ts : List Term) (cnt : Nat) (rest : List Char) :
    scan .s2 gs sgn ts cnt (ds ++ rest) = scan .s2 gs sgn ts (valAux cnt ds) rest := by
  induction ds generalizing cnt with
  | nil => rfl
  | cons c ds ih =>
    have hc : isDigitChar c = true := hds c (List.mem_cons_self c ds)
    rw [List.cons_append,
      show scan .s2 gs sgn ts cnt (c :: (ds ++ rest)) =
        scan .s2 gs sgn ts (cnt * 10 + charVal c) (ds ++ rest) by simp [scan, hc]]
    exact ih (fun c2 hc2 => hds c2 (List.mem_cons_of_mem _ hc2)) _

theorem scan_s1_digits {ds : List Char} (hne : ds ≠ [])
    (hds : ∀ c ∈ ds, isDigitChar c = true) (gs : List SGroup) (sgn : Bool)
    (ts : List Term) (cnt : Nat) (rest : List Char) :
    scan .s1 gs sgn ts cnt (ds ++ rest) = scan .s2 gs sgn ts (valAux 0 ds) rest := by
  cases ds with
  | nil => cases hne rfl
  | cons c ds =>
    have hc : isDigitChar c = true := hds c (List.mem_cons_self c ds)
    rw [List.cons_append,
      show scan .s1 gs sgn ts cnt (c :: (ds ++ rest)) =
        scan .s2 gs sgn ts (charVal c) (ds ++ rest) by simp [scan, digit_not_ws hc, hc],
      scan_s2_digits (fun c2 hc2 => hds c2 (List.mem_cons_of_mem _ hc2)),
      valAux_cons_zero]

theorem scan_s4_ws {c : Char} (h : isWsChar c = true) (gs : List SGroup)
    (sgn : Bool) (ts : List Term) (cnt : Nat) (cs : List Char) :
    scan .s4 gs sgn ts cnt (c :: cs) = scan .s4 gs sgn ts cnt cs := by
  simp [scan, h]

theorem scan_s4_digits {ds : List Char} (hne : ds ≠ [])
    (hds : ∀ c ∈ ds, isDigitChar c = true) (gs : List SGroup) (sgn : Bool)
    (ts : List Term) (cnt : Nat) (rest : List Char) :
    scan .s4 gs sgn ts cnt (ds ++ rest) = scan .s2 gs sgn ts (valAux 0 ds) rest := by
  cases ds with
  | nil => cases hne rfl
  | cons c ds =>
    have hc : isDigitChar c = true := hds c (List.mem_cons_self c ds)
    rw [List.cons_append,
      show scan .s4 gs sgn ts cnt (c :: (ds ++ rest)) =
        scan .s2 gs sgn ts (charVal c) (ds ++ rest) by simp [scan, digit_not_ws hc, hc],
      scan_s2_digits (fun c2 hc2 => hds c2 (List.mem_cons_of_mem _ hc2)),
      valAux_cons_zero]

theorem scan_s2_unit {u : Char} (hu : isUnitChar u = true) (gs : List SGroup)
    (sgn : Bool) (ts : List Term) (cnt : Nat) (cs : List Char) :
    scan .s2 gs sgn ts cnt (u :: cs) = scan .s4 gs sgn ((cnt, u) :: ts) 0 cs := by
  simp [scan, unit_not_digit hu, unit_not_ws hu, hu]

theorem scan_s4_sign {c : Char} (hc : isSignChar c = true) (gs : List SGroup)
    (sgn : Bool) (ts : List Term) (cnt : Nat) (cs : List Char) :
    scan .s4 gs sgn ts cnt (c :: cs) =
      scan .s1 ((sgn, ts.reverse) :: gs) (c = '-') [] 0 cs := by
  simp [scan, sign_not_ws hc, sign_not_digit hc, hc]

/-- Scanning a sign followed by the canonical formatter body
`{h}h {mm}m {ss}s` (or its compact variant) yields exactly one group with
the three terms. -/
theorem scan_hms (c0 : Char) (hc0 : isSignChar c0 = true) (h mi s : Nat)
    (sep : List Char) (hsep : sep = [] ∨ sep = [' ']) :
    scan .s0 [] false [] 0
      (c0 :: (natChars h ++ 'h' :: (sep ++ (pad2N mi ++ 'm' :: (sep ++ (pad2N s ++ ['s']))))))
    = some [(decide (c0 = '-'), [(h, 'h'), (mi, 'm'), (s, 's')])] := by
  have step_sep : ∀ (gs : List SGroup) (sgn : Bool) (ts : List Term) (cnt : Nat)
      (rest : List Char), scan .s4 gs sgn ts cnt (sep ++ rest) = scan .s4 gs sgn ts cnt rest := by
    rcases hsep with h1 | h1 <;> subst h1
    · intro _ _ _ _ _; rfl
    · intro gs sgn ts cnt rest
      rw [List.cons_append, List.nil_append]
      exact scan_s4_ws (by decide) gs sgn ts cnt rest
  rw [scan_s0_sign hc0,
    scan_s1_digits (natChars_ne_nil h) (natChars_all_digits h), valAux_natChars,
    scan_s2_unit (by decide), step_sep,
    scan_s4_digits (pad2N_ne_nil mi) (pad2N_all_digits mi), valAux_pad2N,
    scan_s2_unit (by decide), step_sep,
    scan_s4_digits (pad2N_ne_nil s) (pad2N_all_digits s), valAux_pad2N,
    scan_s2_unit (by decide)]
  rfl

/-! ### Comment stripping and sign normalization -/

theorem stripComment_of_no_hash {l : List Char} (h : ∀ c ∈ l, c ≠ '#') :
    stripComment l = l := by
  induction l with
  | nil => rfl
  | cons c cs ih =>
    unfold stripComment
    rw [if_neg (h c (List.mem_cons_self c cs)),
      ih (fun c2 hc2 => h c2 (List.mem_cons_of_mem _ hc2))]

theorem normalizeSign_sign {c : Char} (h : isSignChar c = true) (cs : List Char) :
    normalizeSign (c :: cs) = c :: cs := by
  simp [normalizeSign, h]

theorem normalizeSign_other {c : Char} (h : isSignChar c = false) (cs : List Char) :
    normalizeSign (c :: cs) = '+' :: c :: cs := by
  simp [normalizeSign, h]

/-! ### Values produced by the evaluation loop -/

theorem wholeOk_of_bounds {d : Int} (hdvd : 1000 ∣ d) (h1 : -maxMs ≤ d)
    (h2 : d ≤ maxMs) : wholeOk d := by
  unfold maxMs at h1 h2
  exact ⟨hdvd, by omega, by omega⟩

theorem wholeOk_zero : wholeOk 0 := ⟨⟨0, rfl⟩, by omega, by omega⟩

theorem liftPanic_ok {o : Option Int} {d : Int}
    (h : liftPanic o = .ok (some d)) : o = some d := by
  cases o with
  | some x => simp [liftPanic] at h; rw [h]
  | none => simp [liftPanic] at h

theorem mkMs_eq_some {e d : Int} (h : mkMs e = some d) :
    d = e ∧ -maxMs ≤ e ∧ e ≤ maxMs := by
  unfold mkMs at h
  split at h
  next hc => injection h with h2; exact ⟨h2.symm, hc.1, hc.2⟩
  next => cases h

theorem token_whole {count : Int} {u : Char} {d : Int}
    (h : token_to_duration count u = .ok (some d)) : wholeOk d := by
  unfold token_to_duration at h
  split at h
  · obtain ⟨he, h1, h2⟩ := mkMs_eq_some (liftPanic_ok h)
    subst he
    exact wholeOk_of_bounds ((show (1000 : Int) ∣ 86400000 by norm_num).mul_left _) h1 h2
  · obtain ⟨he, h1, h2⟩ := mkMs_eq_some (liftPanic_ok h)
    subst he
    exact wholeOk_of_bounds ((show (1000 : Int) ∣ 86400000 by norm_num).mul_left _) h1 h2
  · obtain ⟨he, h1, h2⟩ := mkMs_eq_some (liftPanic_ok h)
    subst he
    exact wholeOk_of_bounds ((show (1000 : Int) ∣ 3600000 by norm_num).mul_left _) h1 h2
  · obtain ⟨he, h1, h2⟩ := mkMs_eq_some (liftPanic_ok h)
    subst he
    exact wholeOk_of_bounds ((show (1000 : Int) ∣ 60000 by norm_num).mul_left _) h1 h2
  · obtain ⟨he, h1, h2⟩ := mkMs_eq_some (liftPanic_ok h)
    subst he
    exact wholeOk_of_bounds ((show (1000 : Int) ∣ 1000 by norm_num).mul_left _) h1 h2
  · injection h with h2; cases h2

theorem checked_add_eq_some {a b c : Int} (h : checked_add a b = some c) :
    c = a + b ∧ -maxMs ≤ a + b ∧ a + b ≤ maxMs := by
  unfold checked_add at h
  split at h
  next hc => injection h with h2; exact ⟨h2.symm, hc.1, hc.2⟩
  next => cases h

theorem checked_sub_eq_some {a b c : Int} (h : checked_sub a b = some c) :
    c = a - b ∧ -maxMs ≤ a - b ∧ a - b ≤ maxMs := by
  unfold checked_sub at h
  split at h
  next hc => injection h with h2; exact ⟨h2.symm, hc.1, hc.2⟩
  next => cases h

theorem evalTok_whole {isNeg : Bool} {dur : Int} {n : Nat} {u : Char} {d2 : Int}
    (hdur : wholeOk dur) (h : evalTok isNeg dur n u = .ok d2) : wholeOk d2 := by
  unfold evalTok at h
  split at h
  · cases h
  · split at h
    · cases h
    · injection h with h2; subst h2; exact hdur
    · next d htok =>
      injection h with h2
      subst h2
      have hd := token_whole htok
      cases isNeg with
      | false =>
        show wholeOk (match checked_add dur d with | some dd => dd | none => d)
        rcases hca : checked_add dur d with _ | dd
        · exact hd
        · obtain ⟨he, h1, h2⟩ := checked_add_eq_some hca
          show wholeOk dd
          rw [he]
          exact wholeOk_of_bounds (dvd_add hdur.1 hd.1) h1 h2
      | true =>
        show wholeOk (match checked_sub dur d with | some dd => dd | none => d)
        rcases hca : checked_sub dur d with _ | dd
        · exact hd
        · obtain ⟨he, h1, h2⟩ := checked_sub_eq_some hca
          show wholeOk dd
          rw [he]
          exact wholeOk_of_bounds (dvd_sub hdur.1 hd.1) h1 h2

theorem evalTerms_whole {isNeg : Bool} {ts : List Term} : ∀ {dur d2 : Int},
    wholeOk dur → evalTerms isNeg dur ts = .ok d2 → wholeOk d2 := by
  induction ts with
  | nil =>
    intro dur d2 hdur h
    injection h with h2
    subst h2
    exact hdur
  | cons t ts ih =>
    intro dur d2 hdur h
    obtain ⟨n, u⟩ := t
    unfold evalTerms at h
    split at h
    · cases h
    · next dmid hmid => exact ih (evalTok_whole hdur hmid) h

theorem evalGroups_whole {gs : List SGroup} : ∀ {dur d2 : Int},
    wholeOk dur → evalGroups dur gs = .ok d2 → wholeOk d2 := by
  induction gs with
  | nil =>
    intro dur d2 hdur h
    injection h with h2
    subst h2
    exact hdur
  | cons g gs ih =>
    intro dur d2 hdur h
    obtain ⟨neg, ts⟩ := g
    unfold evalGroups at h
    split at h
    · cases h
    · next dmid hmid => exact ih (evalTerms_whole hdur hmid) h

/-! ### Unfolding `from_str` against a computed scan -/

theorem from_str_of_scan {s : String} {gs : List SGroup}
    (hne : ¬ (s.data = []))
    (hscan : scanGroups (stripComment (normalizeSign s.data)) = some gs) :
    from_str s = (match evalGroups 0 gs with
                  | .ok d => .ok d
                  | .error _ => .panicked) := by
  unfold from_str
  rw [if_neg hne]
  show (match scanGroups (stripComment (normalizeSign s.data)) with
        | none => ParseResult.invalid
        | some gs =>
          match evalGroups 0 gs with
          | Except.ok d => ParseResult.ok d
          | Except.error _ => ParseResult.panicked) = _
  rw [hscan]

theorem from_str_invalid_of_scan {s : String}
    (hne : ¬ (s.data = []))
    (hscan : scanGroups (stripComment (normalizeSign s.data)) = none) :
    from_str s = .invalid := by
  unfold from_str
  rw [if_neg hne]
  show (match scanGroups (stripComment (normalizeSign s.data)) with
        | none => ParseResult.invalid
        | some gs =>
          match evalGroups 0 gs with
          | Except.ok d => ParseResult.ok d
          | Except.error _ => ParseResult.panicked) = _
  rw [hscan]

theorem from_str_empty {s : String} (he : s.data = []) : from_str s = .ok 0 := by
  unfold from_str
  rw [if_pos he]

theorem from_str_whole {s : String} {v : Int} (h : from_str s = .ok v) :
    wholeOk v := by
  by_cases hne : s.data = []
  · rw [from_str_empty hne] at h
    injection h with h2
    rw [← h2]
    exact wholeOk_zero
  · rcases hscan : scanGroups (stripComment (normalizeSign s.data)) with _ | gs
    · rw [from_str_invalid_of_scan hne hscan] at h
      cases h
    · rw [from_str_of_scan hne hscan] at h
      split at h
      · next d hd =>
        injection h with h2
        rw [← h2]
        exact evalGroups_whole wholeOk_zero hd
      · cases h

/-! ### Token values and evaluation steps -/

theorem wrap64_id {x : Int} (h1 : -9223372036854775808 ≤ x)
    (h2 : x < 9223372036854775808) : wrap64 x = x := by
  unfold wrap64
  rw [Int.emod_eq_of_lt (by omega) (by omega)]
  omega

theorem token_y (n : Nat) (hb : (n : Int) * 31536000000 ≤ maxMs) :
    token_to_duration (n : Int) 'y' = .ok (some ((n : Int) * 31536000000)) := by
  have e1 : token_to_duration (n : Int) 'y' =
      liftPanic (mkMs (wrap64 (365 * (n : Int)) * 86400000)) := rfl
  unfold maxMs at hb
  have hw : wrap64 (365 * (n : Int)) = 365 * (n : Int) :=
    wrap64_id (by omega) (by omega)
  rw [e1, hw, show 365 * (n : Int) * 86400000 = (n : Int) * 31536000000 from by ring]
  unfold mkMs maxMs
  rw [if_pos ⟨by omega, by omega⟩]
  rfl

theorem token_d (n : Nat) (hb : (n : Int) * 86400000 ≤ maxMs) :
    token_to_duration (n : Int) 'd' = .ok (some ((n : Int) * 86400000)) := by
  have e1 : token_to_duration (n : Int) 'd' =
      liftPanic (mkMs ((n : Int) * 86400000)) := rfl
  unfold maxMs at hb
  rw [e1]
  unfold mkMs maxMs
  rw [if_pos ⟨by omega, by omega⟩]
  rfl

theorem token_h (n : Nat) (hb : (n : Int) * 3600000 ≤ maxMs) :
    token_to_duration (n : Int) 'h' = .ok (some ((n : Int) * 3600000)) := by
  have e1 : token_to_duration (n : Int) 'h' =
      liftPanic (mkMs ((n : Int) * 3600000)) := rfl
  unfold maxMs at hb
  rw [e1]
  unfold mkMs maxMs
  rw [if_pos ⟨by omega, by omega⟩]
  rfl

theorem token_m (n : Nat) (hb : (n : Int) * 60000 ≤ maxMs) :
    token_to_duration (n : Int) 'm' = .ok (some ((n : Int) * 60000)) := by
  have e1 : token_to_duration (n : Int) 'm' =
      liftPanic (mkMs ((n : Int) * 60000)) := rfl
  unfold maxMs at hb
  rw [e1]
  unfold mkMs maxMs
  rw [if_pos ⟨by omega, by omega⟩]
  rfl

theorem token_s (n : Nat) (hb : (n : Int) * 1000 ≤ maxMs) :
    token_to_duration (n : Int) 's' = .ok (some ((n : Int) * 1000)) := by
  have e1 : token_to_duration (n : Int) 's' =
      liftPanic (mkMs ((n : Int) * 1000)) := rfl
  unfold maxMs at hb
  rw [e1]
  unfold mkMs maxMs
  rw [if_pos ⟨by omega, by omega⟩]
  rfl

theorem evalTok_add (dur : Int) {n : Nat} {u : Char} {val : Int}
    (hcnt : (n : Int) ≤ i64Max)
    (htok : token_to_duration (n : Int) u = .ok (some val))
    (h1 : -maxMs ≤ dur + val) (h2 : dur + val ≤ maxMs) :
    evalTok false dur n u = .ok (dur + val) := by
  unfold evalTok
  unfold i64Max at hcnt
  rw [if_neg (by unfold i64Max; omega), htok]
  show Except.ok (match checked_add dur val with | some dd => dd | none => val) = _
  rw [show checked_add dur val = some (dur + val) from by
    unfold checked_add; rw [if_pos ⟨h1, h2⟩]]

theorem evalTok_sub (dur : Int) {n : Nat} {u : Char} {val : Int}
    (hcnt : (n : Int) ≤ i64Max)
    (htok : token_to_duration (n : Int) u = .ok (some val))
    (h1 : -maxMs ≤ dur - val) (h2 : dur - val ≤ maxMs) :
    evalTok true dur n u = .ok (dur - val) := by
  unfold evalTok
  unfold i64Max at hcnt
  rw [if_neg (by unfold i64Max; omega), htok]
  show Except.ok (match checked_sub dur val with | some dd => dd | none => val) = _
  rw [show checked_sub dur val = some (dur - val) from by
    unfold checked_sub; rw [if_pos ⟨h1, h2⟩]]

theorem evalTok_add_overflow (dur : Int) {n : Nat} {u : Char} {val : Int}
    (hcnt : (n : Int) ≤ i64Max)
    (htok : token_to_duration (n : Int) u = .ok (some val))
    (hov : ¬ (-maxMs ≤ dur + val ∧ dur + val ≤ maxMs)) :
    evalTok false dur n u = .ok val := by
  unfold evalTok
  unfold i64Max at hcnt
  rw [if_neg (by unfold i64Max; omega), htok]
  show Except.ok (match checked_add dur val with | some dd => dd | none => val) = _
  rw [show checked_add dur val = none from by
    unfold checked_add; rw [if_neg hov]]

theorem evalTok_sub_overflow (dur : Int) {n : Nat} {u : Char} {val : Int}
    (hcnt : (n : Int) ≤ i64Max)
    (htok : token_to_duration (n : Int) u = .ok (some val))
    (hov : ¬ (-maxMs ≤ dur - val ∧ dur - val ≤ maxMs)) :
    evalTok true dur n u = .ok val := by
  unfold evalTok
  unfold i64Max at hcnt
  rw [if_neg (by unfold i64Max; omega), htok]
  show Except.ok (match checked_sub dur val with | some dd => dd | none => val) = _
  rw [show checked_sub dur val = none from by
    unfold checked_sub; rw [if_neg hov]]

theorem evalTok_panicked {dur : Int} {n : Nat} {u : Char}
    (hcnt : i64Max < (n : Int)) :
    evalTok isNeg dur n u = .error () := by
  unfold evalTok
  rw [if_pos hcnt]

theorem evalTerms_cons_ok {isNeg : Bool} {dur d2 : Int} {n : Nat} {u : Char}
    (h : evalTok isNeg dur n u = .ok d2) (ts : List Term) :
    evalTerms isNeg dur ((n, u) :: ts) = evalTerms isNeg d2 ts := by
  have e : evalTerms isNeg dur ((n, u) :: ts) =
      (match evalTok isNeg dur n u with
       | .error e => .error e
       | .ok d2 => evalTerms isNeg d2 ts) := rfl
  rw [e, h]

theorem evalTerms_cons_err {isNeg : Bool} {dur : Int} {n : Nat} {u : Char}
    (h : evalTok isNeg dur n u = .error ()) (ts : List Term) :
    evalTerms isNeg dur ((n, u) :: ts) = .error () := by
  have e : evalTerms isNeg dur ((n, u) :: ts) =
      (match evalTok isNeg dur n u with
       | .error e => .error e
       | .ok d2 => evalTerms isNeg d2 ts) := rfl
  rw [e, h]


theorem evalTerms_nil (isNeg : Bool) (dur : Int) :
    evalTerms isNeg dur [] = .ok dur := rfl

theorem evalGroups_singleton (neg : Bool) (ts : List Term) (dur : Int) :
    evalGroups dur [(neg, ts)] = evalTerms neg dur ts := by
  have e : evalGroups dur [(neg, ts)] =
      (match evalTerms neg dur ts with
       | .error e => .error e
       | .ok d2 => evalGroups d2 []) := rfl
  rw [e]
  cases h : evalTerms neg dur ts with
  | error e2 => rfl
  | ok d => rfl

/-- Evaluating the single group extracted from a canonical
`{sign}{h}h {mm}m {ss}s` string. -/
theorem evalGroups_hms (neg : Bool) (h mi s : Nat)
    (hk : 3600 * h + 60 * mi + s ≤ 9223372036854775) :
    evalGroups 0 [(neg, [(h, 'h'), (mi, 'm'), (s, 's')])] =
      .ok (if neg = true then -((h : Int) * 3600000 + mi * 60000 + s * 1000)
           else (h : Int) * 3600000 + mi * 60000 + s * 1000) := by
  cases neg with
  | false =>
    rw [evalGroups_singleton]
    have t1 : evalTok false 0 h 'h' = .ok ((h : Int) * 3600000) := by
      have := evalTok_add 0
        (by unfold i64Max; omega)
        (token_h h (by unfold maxMs; omega))
        (by unfold maxMs; omega) (by unfold maxMs; omega)
      rw [zero_add] at this
      exact this
    rw [evalTerms_cons_ok t1]
    have t2 : evalTok false ((h : Int) * 3600000) mi 'm' =
        .ok ((h : Int) * 3600000 + (mi : Int) * 60000) :=
      evalTok_add _ (by unfold i64Max; omega)
        (token_m mi (by unfold maxMs; omega))
        (by unfold maxMs; omega) (by unfold maxMs; omega)
    rw [evalTerms_cons_ok t2]
    have t3 : evalTok false ((h : Int) * 3600000 + (mi : Int) * 60000) s 's' =
        .ok ((h : Int) * 3600000 + (mi : Int) * 60000 + (s : Int) * 1000) :=
      evalTok_add _ (by unfold i64Max; omega)
        (token_s s (by unfold maxMs; omega))
        (by unfold maxMs; omega) (by unfold maxMs; omega)
    rw [evalTerms_cons_ok t3, evalTerms_nil]
    rfl
  | true =>
    rw [evalGroups_singleton]
    have t1 : evalTok true 0 h 'h' = .ok (-((h : Int) * 3600000)) := by
      have := evalTok_sub 0
        (by unfold i64Max; omega)
        (token_h h (by unfold maxMs; omega))
        (by unfold maxMs; omega) (by unfold maxMs; omega)
      rw [zero_sub] at this
      exact this
    rw [evalTerms_cons_ok t1]
    have t2 : evalTok true (-((h : Int) * 3600000)) mi 'm' =
        .ok (-((h : Int) * 3600000) - (mi : Int) * 60000) :=
      evalTok_sub _ (by unfold i64Max; omega)
        (token_m mi (by unfold maxMs; omega))
        (by unfold maxMs; omega) (by unfold maxMs; omega)
    rw [evalTerms_cons_ok t2]
    have t3 : evalTok true (-((h : Int) * 3600000) - (mi : Int) * 60000) s 's' =
        .ok (-((h : Int) * 3600000) - (mi : Int) * 60000 - (s : Int) * 1000) :=
      evalTok_sub _ (by unfold i64Max; omega)
        (token_s s (by unfold maxMs; omega))
        (by unfold maxMs; omega) (by unfold maxMs; omega)
    rw [evalTerms_cons_ok t3, evalTerms_nil,
      show -((h : Int) * 3600000) - (mi : Int) * 60000 - (s : Int) * 1000 =
        -((h : Int) * 3600000 + (mi : Int) * 60000 + (s : Int) * 1000) from by ring]
    rfl

/-! ### Formatter output shape -/

theorem tdiv_coe (a b : Nat) : ((a : Int)).tdiv (b : Int) = ((a / b : Nat) : Int) := rfl

theorem tmod_coe (a b : Nat) : ((a : Int)).tmod (b : Int) = ((a % b : Nat) : Int) := rfl

theorem num_seconds_coe (k : Nat) : num_seconds ((k : Int) * 1000) = (k : Int) := by
  unfold num_seconds
  rw [show (k : Int) * 1000 = ((k * 1000 : Nat) : Int) from by push_cast; ring,
    show (1000 : Int) = ((1000 : Nat) : Int) from rfl, tdiv_coe]
  norm_num

/-- Zeta-expanded form of `fmtDuration` (the `let` chain substituted). -/
theorem fmtDuration_expand (ms : Int) (c : Bool) :
    fmtDuration ms c =
      String.mk ((if (if 0 > ms then (-1 : Int) else 1) < 0 then ['-'] else []) ++
        intChars (((if 0 > ms then (-1 : Int) else 1) * num_seconds ms).tdiv 3600) ++
        'h' :: (if c then [] else [' ']) ++
        pad2 ((((if 0 > ms then (-1 : Int) else 1) * num_seconds ms).tmod 3600).tdiv 60) ++
        'm' :: (if c then [] else [' ']) ++
        pad2 (((if 0 > ms then (-1 : Int) else 1) * num_seconds ms).tmod 60) ++
        's' :: []) := rfl

theorem fmtDuration_coe_nonneg (k : Nat) (c : Bool) :
    fmtDuration ((k : Int) * 1000) c =
      String.mk (fmtBody k (if c then [] else [' '])) := by
  unfold fmtBody
  rw [fmtDuration_expand]
  rw [if_neg (show ¬ ((0 : Int) > (k : Int) * 1000) from by omega)]
  rw [num_seconds_coe, one_mul]
  rw [show (3600 : Int) = ((3600 : Nat) : Int) from rfl, tdiv_coe,
    show (60 : Int) = ((60 : Nat) : Int) from rfl, tmod_coe, tdiv_coe, tmod_coe]
  rw [if_neg (show ¬ ((1 : Int) < 0) from by omega)]
  rw [intChars_coe, pad2_coe (show k % 3600 / 60 < 100 from by omega),
    pad2_coe (show k % 60 < 100 from by omega)]
  refine congrArg String.mk ?_
  simp only [List.cons_append, List.append_assoc, List.nil_append]

theorem fmtDuration_coe_neg (k : Nat) (hk : 1 ≤ k) (c : Bool) :
    fmtDuration (-((k : Int) * 1000)) c =
      String.mk ('-' :: fmtBody k (if c then [] else [' '])) := by
  unfold fmtBody
  rw [fmtDuration_expand]
  rw [if_pos (show (0 : Int) > -((k : Int) * 1000) from by omega)]
  rw [show num_seconds (-((k : Int) * 1000)) = -(num_seconds ((k : Int) * 1000)) from by
    unfold num_seconds; exact Int.neg_tdiv _ _]
  rw [num_seconds_coe,
    show (-1 : Int) * -((k : Int)) = (k : Int) from by ring]
  rw [show (3600 : Int) = ((3600 : Nat) : Int) from rfl, tdiv_coe,
    show (60 : Int) = ((60 : Nat) : Int) from rfl, tmod_coe, tdiv_coe, tmod_coe]
  rw [if_pos (show (-1 : Int) < 0 from by omega)]
  rw [intChars_coe, pad2_coe (show k % 3600 / 60 < 100 from by omega),
    pad2_coe (show k % 60 < 100 from by omega)]
  refine congrArg String.mk ?_
  simp only [List.cons_append, List.append_assoc, List.nil_append]

/-! ### Reparsing the formatter output -/

theorem digit_not_sign {c : Char} (h : isDigitChar c = true) : isSignChar c = false := by
  cases hs : isSignChar c
  · rfl
  · rw [sign_not_digit hs] at h; cases h

theorem append_ne_nil_left {ds rest : List Char} (h : ds ≠ []) : ds ++ rest ≠ [] := by
  cases ds with
  | nil => cases h rfl
  | cons c l => simp

theorem normalizeSign_append_digits {ds : List Char} (hne : ds ≠ [])
    (hds : ∀ c ∈ ds, isDigitChar c = true) (rest : List Char) :
    normalizeSign (ds ++ rest) = '+' :: (ds ++ rest) := by
  cases ds with
  | nil => cases hne rfl
  | cons c l =>
    rw [List.cons_append]
    exact normalizeSign_other (digit_not_sign (hds c (List.mem_cons_self c l))) _

theorem sep_no_hash {sep : List Char} (hsep : sep = [] ∨ sep = [' ']) :
    ∀ x ∈ sep, x ≠ '#' := by
  rcases hsep with h | h <;> subst h
  · intro x hx; cases hx
  · intro x hx
    rw [List.mem_singleton] at hx
    subst hx
    decide

theorem fmtBody_no_hash (k : Nat) (sep : List Char)
    (hsep : sep = [] ∨ sep = [' ']) : ∀ x ∈ fmtBody k sep, x ≠ '#' := by
  intro x hx
  unfold fmtBody at hx
  rcases List.mem_append.mp hx with h1 | h1
  · exact digit_ne_hash (natChars_all_digits _ x h1)
  · rcases List.mem_cons.mp h1 with h2 | h2
    · subst h2; decide
    · rcases List.mem_append.mp h2 with h3 | h3
      · exact sep_no_hash hsep x h3
      · rcases List.mem_append.mp h3 with h4 | h4
        · exact digit_ne_hash (pad2N_all_digits _ x h4)
        · rcases List.mem_cons.mp h4 with h5 | h5
          · subst h5; decide
          · rcases List.mem_append.mp h5 with h6 | h6
            · exact sep_no_hash hsep x h6
            · rcases List.mem_append.mp h6 with h7 | h7
              · exact digit_ne_hash (pad2N_all_digits _ x h7)
              · rw [List.mem_singleton] at h7
                subst h7
                decide

theorem scan_fmtBody (c0 : Char) (hc0 : isSignChar c0 = true) (k : Nat)
    (sep : List Char) (hsep : sep = [] ∨ sep = [' ']) :
    scan .s0 [] false [] 0 (c0 :: fmtBody k sep) =
      some [(decide (c0 = '-'), [(k / 3600, 'h'), (k % 3600 / 60, 'm'), (k % 60, 's')])] := by
  unfold fmtBody
  exact scan_hms c0 hc0 (k / 3600) (k % 3600 / 60) (k % 60) sep hsep

theorem parse_fmtBody_pos (k : Nat) (hk : k ≤ 9223372036854775)
    (sep : List Char) (hsep : sep = [] ∨ sep = [' ']) :
    from_str (String.mk (fmtBody k sep)) = .ok ((k : Int) * 1000) := by
  have hne : ¬ ((String.mk (fmtBody k sep)).data = []) := by
    show ¬ (fmtBody k sep = [])
    unfold fmtBody
    exact append_ne_nil_left (natChars_ne_nil _)
  have hstrip : stripComment ('+' :: fmtBody k sep) = '+' :: fmtBody k sep := by
    apply stripComment_of_no_hash
    intro x hx
    rcases List.mem_cons.mp hx with h1 | h1
    · subst h1; decide
    · exact fmtBody_no_hash k sep hsep x h1
  have hscan : scanGroups (stripComment (normalizeSign (String.mk (fmtBody k sep)).data)) =
      some [(false, [(k / 3600, 'h'), (k % 3600 / 60, 'm'), (k % 60, 's')])] := by
    show scanGroups (stripComment (normalizeSign (fmtBody k sep))) = _
    rw [show normalizeSign (fmtBody k sep) = '+' :: fmtBody k sep from by
      unfold fmtBody
      exact normalizeSign_append_digits (natChars_ne_nil _) (natChars_all_digits _) _]
    rw [hstrip]
    unfold scanGroups
    rw [scan_fmtBody '+' (by decide) k sep hsep]
    rfl
  rw [from_str_of_scan hne hscan,
    evalGroups_hms false (k / 3600) (k % 3600 / 60) (k % 60) (by omega)]
  show ParseResult.ok (if false = true
      then -(((k / 3600 : Nat) : Int) * 3600000 + ((k % 3600 / 60 : Nat) : Int) * 60000 +
        ((k % 60 : Nat) : Int) * 1000)
      else ((k / 3600 : Nat) : Int) * 3600000 + ((k % 3600 / 60 : Nat) : Int) * 60000 +
        ((k % 60 : Nat) : Int) * 1000) = ParseResult.ok ((k : Int) * 1000)
  rw [if_neg (by simp)]
  have harith : ((k / 3600 : Nat) : Int) * 3600000 + ((k % 3600 / 60 : Nat) : Int) * 60000 +
      ((k % 60 : Nat) : Int) * 1000 = (k : Int) * 1000 := by omega
  rw [harith]

theorem parse_fmtBody_neg (k : Nat) (hk : k ≤ 9223372036854775)
    (sep : List Char) (hsep : sep = [] ∨ sep = [' ']) :
    from_str (String.mk ('-' :: fmtBody k sep)) = .ok (-((k : Int) * 1000)) := by
  have hne : ¬ ((String.mk ('-' :: fmtBody k sep)).data = []) := by
    show ¬ ('-' :: fmtBody k sep = [])
    simp
  have hstrip : stripComment ('-' :: fmtBody k sep) = '-' :: fmtBody k sep := by
    apply stripComment_of_no_hash
    intro x hx
    rcases List.mem_cons.mp hx with h1 | h1
    · subst h1; decide
    · exact fmtBody_no_hash k sep hsep x h1
  have hscan : scanGroups (stripComment (normalizeSign
      (String.mk ('-' :: fmtBody k sep)).data)) =
      some [(true, [(k / 3600, 'h'), (k % 3600 / 60, 'm'), (k % 60, 's')])] := by
    show scanGroups (stripComment (normalizeSign ('-' :: fmtBody k sep))) = _
    rw [normalizeSign_sign (by decide), hstrip]
    unfold scanGroups
    rw [scan_fmtBody '-' (by decide) k sep hsep]
    rfl
  rw [from_str_of_scan hne hscan,
    evalGroups_hms true (k / 3600) (k % 3600 / 60) (k % 60) (by omega)]
  show ParseResult.ok (if true = true
      then -(((k / 3600 : Nat) : Int) * 3600000 + ((k % 3600 / 60 : Nat) : Int) * 60000 +
        ((k % 60 : Nat) : Int) * 1000)
      else ((k / 3600 : Nat) : Int) * 3600000 + ((k % 3600 / 60 : Nat) : Int) * 60000 +
        ((k % 60 : Nat) : Int) * 1000) = ParseResult.ok (-((k : Int) * 1000))
  rw [if_pos rfl]
  have harith : ((k / 3600 : Nat) : Int) * 3600000 + ((k % 3600 / 60 : Nat) : Int) * 60000 +
      ((k % 60 : Nat) : Int) * 1000 = (k : Int) * 1000 := by omega
  rw [harith]

/-- Reparsing the formatter output of any value the parser can produce
gives back exactly that value. -/
theorem parse_fmtDuration {v : Int} (hv : wholeOk v) (c : Bool) :
    from_str (fmtDuration v c) = .ok v := by
  obtain ⟨hdvd, hlo, hhi⟩ := hv
  have hsep : (if c then ([] : List Char) else [' ']) = [] ∨
      (if c then ([] : List Char) else [' ']) = [' '] := by
    cases c
    · exact Or.inr rfl
    · exact Or.inl rfl
  rcases le_or_lt 0 v with hpos | hneg
  · obtain ⟨k, hk⟩ : ∃ k : Nat, v = (k : Int) * 1000 := by
      obtain ⟨k0, hk0⟩ := hdvd
      exact ⟨k0.toNat, by omega⟩
    subst hk
    rw [fmtDuration_coe_nonneg]
    exact parse_fmtBody_pos k (by omega) _ hsep
  · obtain ⟨k, hk⟩ : ∃ k : Nat, v = -((k : Int) * 1000) := by
      obtain ⟨k0, hk0⟩ := hdvd
      exact ⟨(-k0).toNat, by omega⟩
    subst hk
    rw [fmtDuration_coe_neg k (by omega)]
    exact parse_fmtBody_neg k (by omega) _ hsep

/-! ### Further scanner and evaluator helpers -/

theorem stripComment_cons_ne {c : Char} (h : c ≠ '#') (cs : List Char) :
    stripComment (c :: cs) = c :: stripComment cs := by
  have e : stripComment (c :: cs) = if c = '#' then [] else c :: stripComment cs := rfl
  rw [e, if_neg h]

theorem scan_s4_stuck {c : Char} (h1 : isWsChar c = false) (h2 : isDigitChar c = false)
    (h3 : isSignChar c = false) (gs : List SGroup) (sgn : Bool) (ts : List Term)
    (cnt : Nat) (cs : List Char) :
    scan .s4 gs sgn ts cnt (c :: cs) = none := by
  simp [scan, h1, h2, h3]

theorem scan_single_term (c : Nat) {u : Char} (hu : isUnitChar u = true) :
    scan .s0 [] false [] 0 ('+' :: (natChars c ++ [u])) = some [(false, [(c, u)])] := by
  rw [scan_s0_sign (by decide),
    scan_s1_digits (natChars_ne_nil c) (natChars_all_digits c), valAux_natChars,
    scan_s2_unit hu, scan_nil_s4]
  rfl

theorem scanGroups_single_term (c : Nat) {u : Char} (hu : isUnitChar u = true) :
    scanGroups (stripComment (normalizeSign
      (String.mk (natChars c ++ [u])).data)) = some [(false, [(c, u)])] := by
  show scanGroups (stripComment (normalizeSign (natChars c ++ [u]))) = _
  rw [normalizeSign_append_digits (natChars_ne_nil c) (natChars_all_digits c),
    stripComment_of_no_hash (by
      intro x hx
      rcases List.mem_cons.mp hx with h1 | h1
      · subst h1; decide
      · rcases List.mem_append.mp h1 with h2 | h2
        · exact digit_ne_hash (natChars_all_digits c x h2)
        · rw [List.mem_singleton] at h2
          subst h2
          exact unit_ne_hash hu)]
  unfold scanGroups
  exact scan_single_term c hu

theorem scan_two_seconds (c1 c2 : Nat) :
    scan .s0 [] false [] 0
      ('+' :: (natChars c1 ++ 's' :: (' ' :: (natChars c2 ++ ['s'])))) =
      some [(false, [(c1, 's'), (c2, 's')])] := by
  rw [scan_s0_sign (by decide),
    scan_s1_digits (natChars_ne_nil c1) (natChars_all_digits c1), valAux_natChars,
    scan_s2_unit (by decide), scan_s4_ws (by decide),
    scan_s4_digits (natChars_ne_nil c2) (natChars_all_digits c2), valAux_natChars,
    scan_s2_unit (by decide), scan_nil_s4]
  rfl

theorem scanGroups_two_seconds (c1 c2 : Nat) :
    scanGroups (stripComment (normalizeSign
      (String.mk (natChars c1 ++ 's' :: (' ' :: (natChars c2 ++ ['s'])))).data)) =
      some [(false, [(c1, 's'), (c2, 's')])] := by
  show scanGroups (stripComment (normalizeSign
    (natChars c1 ++ 's' :: (' ' :: (natChars c2 ++ ['s']))))) = _
  rw [normalizeSign_append_digits (natChars_ne_nil c1) (natChars_all_digits c1),
    stripComment_of_no_hash (by
      intro x hx
      rcases List.mem_cons.mp hx with h1 | h1
      · subst h1; decide
      · rcases List.mem_append.mp h1 with h2 | h2
        · exact digit_ne_hash (natChars_all_digits c1 x h2)
        · rcases List.mem_cons.mp h2 with h3 | h3
          · subst h3; decide
          · rcases List.mem_cons.mp h3 with h4 | h4
            · subst h4; decide
            · rcases List.mem_append.mp h4 with h5 | h5
              · exact digit_ne_hash (natChars_all_digits c2 x h5)
              · rw [List.mem_singleton] at h5
                subst h5
                decide)]
  unfold scanGroups
  exact scan_two_seconds c1 c2

theorem scan_min_unit (c : Nat) :
    scan .s0 [] false [] 0 ('+' :: (natChars c ++ 'm' :: ('i' :: ['n']))) = none := by
  rw [scan_s0_sign (by decide),
    scan_s1_digits (natChars_ne_nil c) (natChars_all_digits c), valAux_natChars,
    scan_s2_unit (by decide), scan_s4_stuck (by decide) (by decide) (by decide)]

theorem scanGroups_min_unit (c : Nat) :
    scanGroups (stripComment (normalizeSign
      (String.mk (natChars c ++ 'm' :: ('i' :: ['n']))).data)) = none := by
  show scanGroups (stripComment (normalizeSign
    (natChars c ++ 'm' :: ('i' :: ['n'])))) = _
  rw [normalizeSign_append_digits (natChars_ne_nil c) (natChars_all_digits c),
    stripComment_of_no_hash (by
      intro x hx
      rcases List.mem_cons.mp hx with h1 | h1
      · subst h1; decide
      · rcases List.mem_append.mp h1 with h2 | h2
        · exact digit_ne_hash (natChars_all_digits c x h2)
        · rcases List.mem_cons.mp h2 with h3 | h3
          · subst h3; decide
          · rcases List.mem_cons.mp h3 with h4 | h4
            · subst h4; decide
            · rw [List.mem_singleton] at h4
              subst h4
              decide)]
  unfold scanGroups
  exact scan_min_unit c

theorem token_no_panic {n : Nat} (u : Char) (hb : n ≤ 292471208) :
    ∃ r, token_to_duration (n : Int) u = .ok r := by
  unfold token_to_duration
  split
  · have hw : wrap64 (365 * (n : Int)) = 365 * (n : Int) :=
      wrap64_id (by omega) (by omega)
    rw [hw]
    unfold durDays mkMs maxMs
    rw [if_pos ⟨by omega, by omega⟩]
    exact ⟨_, rfl⟩
  · unfold durDays mkMs maxMs
    rw [if_pos ⟨by omega, by omega⟩]
    exact ⟨_, rfl⟩
  · unfold durHours mkMs maxMs
    rw [if_pos ⟨by omega, by omega⟩]
    exact ⟨_, rfl⟩
  · unfold durMinutes mkMs maxMs
    rw [if_pos ⟨by omega, by omega⟩]
    exact ⟨_, rfl⟩
  · unfold durSeconds mkMs maxMs
    rw [if_pos ⟨by omega, by omega⟩]
    exact ⟨_, rfl⟩
  · exact ⟨none, rfl⟩

theorem evalTok_no_panic (isNeg : Bool) (dur : Int) {n : Nat} (u : Char)
    (hb : n ≤ 292471208) : ∃ d2, evalTok isNeg dur n u = .ok d2 := by
  unfold evalTok
  rw [if_neg (by unfold i64Max; omega)]
  obtain ⟨r, hr⟩ := token_no_panic u hb
  rw [hr]
  cases r with
  | none => exact ⟨dur, rfl⟩
  | some d => exact ⟨_, rfl⟩

theorem evalTerms_no_panic (isNeg : Bool) (ts : List Term) : ∀ (dur : Int),
    (∀ t ∈ ts, t.1 ≤ 292471208) → ∃ d2, evalTerms isNeg dur ts = .ok d2 := by
  induction ts with
  | nil => intro dur _; exact ⟨dur, rfl⟩
  | cons t ts ih =>
    intro dur hts
    obtain ⟨n, u⟩ := t
    obtain ⟨dmid, hmid⟩ := evalTok_no_panic isNeg dur u
      (hts (n, u) (List.mem_cons_self _ _))
    rw [evalTerms_cons_ok hmid]
    exact ih dmid (fun t2 ht2 => hts t2 (List.mem_cons_of_mem _ ht2))

theorem evalGroups_no_panic (gs : List SGroup) : ∀ (dur : Int),
    (∀ g ∈ gs, ∀ t ∈ g.2, t.1 ≤ 292471208) →
    ∃ d2, evalGroups dur gs = .ok d2 := by
  induction gs with
  | nil => intro dur _; exact ⟨dur, rfl⟩
  | cons g gs ih =>
    intro dur hgs
    obtain ⟨neg, ts⟩ := g
    obtain ⟨dmid, hmid⟩ := evalTerms_no_panic neg ts dur
      (fun t ht => hgs (neg, ts) (List.mem_cons_self _ _) t ht)
    have e : evalGroups dur ((neg, ts) :: gs) =
        (match evalTerms neg dur ts with
         | .error e => .error e
         | .ok d2 => evalGroups d2 gs) := rfl
    rw [e, hmid]
    exact ih dmid (fun g2 hg2 => hgs g2 (List.mem_cons_of_mem _ hg2))

theorem pad2N_length_two {m : Nat} (h : m < 100) : (pad2N m).length = 2 := by
  unfold pad2N
  by_cases h10 : m < 10
  · rw [if_pos h10]
    simp [natChars_length_one h10]
  · rw [if_neg h10]
    exact natChars_length_two (by omega) h

theorem fmtDuration_shape_nonneg (a : Nat) (c : Bool) :
    fmtDuration (a : Int) c =
      String.mk (fmtBody (a / 1000) (if c then [] else [' '])) := by
  unfold fmtBody
  rw [fmtDuration_expand]
  rw [if_neg (show ¬ ((0 : Int) > (a : Int)) from by omega)]
  rw [show num_seconds ((a : Int)) = ((a / 1000 : Nat) : Int) from by
    unfold num_seconds
    rw [show (1000 : Int) = ((1000 : Nat) : Int) from rfl, tdiv_coe]]
  rw [one_mul]
  rw [show (3600 : Int) = ((3600 : Nat) : Int) from rfl, tdiv_coe,
    show (60 : Int) = ((60 : Nat) : Int) from rfl, tmod_coe, tdiv_coe, tmod_coe]
  rw [if_neg (show ¬ ((1 : Int) < 0) from by omega)]
  rw [intChars_coe, pad2_coe (show a / 1000 % 3600 / 60 < 100 from by omega),
    pad2_coe (show a / 1000 % 60 < 100 from by omega)]
  refine congrArg String.mk ?_
  simp only [List.cons_append, List.append_assoc, List.nil_append]

theorem fmtDuration_shape_neg (a : Nat) (ha : 1 ≤ a) (c : Bool) :
    fmtDuration (-(a : Int)) c =
      String.mk ('-' :: fmtBody (a / 1000) (if c then [] else [' '])) := by
  unfold fmtBody
  rw [fmtDuration_expand]
  rw [if_pos (show (0 : Int) > -(a : Int) from by omega)]
  rw [show num_seconds (-(a : Int)) = -(((a / 1000 : Nat) : Int)) from by
    unfold num_seconds
    rw [Int.neg_tdiv, show (1000 : Int) = ((1000 : Nat) : Int) from rfl, tdiv_coe]]
  rw [show (-1 : Int) * -(((a / 1000 : Nat) : Int)) = ((a / 1000 : Nat) : Int) from by ring]
  rw [show (3600 : Int) = ((3600 : Nat) : Int) from rfl, tdiv_coe,
    show (60 : Int) = ((60 : Nat) : Int) from rfl, tmod_coe, tdiv_coe, tmod_coe]
  rw [if_pos (show (-1 : Int) < 0 from by omega)]
  rw [intChars_coe, pad2_coe (show a / 1000 % 3600 / 60 < 100 from by omega),
    pad2_coe (show a / 1000 % 60 < 100 from by omega)]
  refine congrArg String.mk ?_
  simp only [List.cons_append, List.append_assoc, List.nil_append]

/-! ### Claims -/

/-- Claim C1 as stated is false: in `"9223372036854775s 5s"` the signed
combination of the second term overflows, and the parse result is just
that term's 5 seconds — not the group subtotal (whose saturating value is
`Duration::MAX`). -/
theorem C1_overflow_fallback_counterexample :
    from_str "9223372036854775s 5s" = .ok 5000 ∧
    saturated_add (9223372036854775 * 1000) (5 * 1000) = durationMAX ∧
    (5000 : Int) ≠ durationMAX := by
  refine ⟨by decide, by decide, by decide⟩

/-- Claim C1, amended: the overflow fallback is per term, not per group.
When combining a single term into the running total overflows, the
running total becomes just that term's duration: for counts `c1`, `c2`
whose seconds are each representable but whose sum is not,
`parse("{c1}s {c2}s")` is `c2` seconds — the prior running total and the
earlier term of the group are dropped. -/
theorem C1_overflow_fallback (c1 c2 : Nat)
    (hb1 : (c1 : Int) * 1000 ≤ maxMs) (hb2 : (c2 : Int) * 1000 ≤ maxMs)
    (hov : maxMs < (c1 : Int) * 1000 + (c2 : Int) * 1000) :
    from_str (String.mk (natChars c1 ++ 's' :: (' ' :: (natChars c2 ++ ['s'])))) =
      .ok ((c2 : Int) * 1000) := by
  have hne : ¬ ((String.mk (natChars c1 ++ 's' :: (' ' :: (natChars c2 ++ ['s'])))).data = []) := by
    show ¬ (natChars c1 ++ 's' :: (' ' :: (natChars c2 ++ ['s'])) = [])
    exact append_ne_nil_left (natChars_ne_nil c1)
  rw [from_str_of_scan hne (scanGroups_two_seconds c1 c2), evalGroups_singleton]
  have t1 : evalTok false 0 c1 's' = .ok ((c1 : Int) * 1000) := by
    have := evalTok_add 0
      (by unfold i64Max; unfold maxMs at hb1; omega)
      (token_s c1 hb1)
      (by unfold maxMs at hb1 ⊢; omega) (by unfold maxMs at hb1 ⊢; omega)
    rw [zero_add] at this
    exact this
  rw [evalTerms_cons_ok t1]
  have t2 : evalTok false ((c1 : Int) * 1000) c2 's' = .ok ((c2 : Int) * 1000) :=
    evalTok_add_overflow _
      (by unfold i64Max; unfold maxMs at hb2; omega)
      (token_s c2 hb2)
      (by unfold maxMs at hov ⊢; intro hcon; omega)
  rw [evalTerms_cons_ok t2, evalTerms_nil]

/-- Witness for C1's amended theorem at `c1 = 9223372036854775`, `c2 = 5`. -/
theorem C1_overflow_fallback_witness :
    from_str (String.mk (natChars 9223372036854775 ++ 's' :: (' ' :: (natChars 5 ++ ['s'])))) =
      .ok (((5 : Nat) : Int) * 1000) :=
  C1_overflow_fallback 9223372036854775 5 (by decide) (by decide) (by decide)

/-- Claim C2 as stated is false: whitespace-only and comment-only inputs
are rejected (the gate regex requires at least one signed term), they do
not parse to zero. -/
theorem C2_empty_inputs_counterexample :
    from_str "   " = .invalid ∧ from_str "# only a comment" = .invalid :=
  ⟨by decide, by decide⟩

/-- Claim C2, amended: only the truly empty input parses to the zero
duration; whitespace-only and comment-only inputs fail the grammar gate
and return the error. -/
theorem C2_empty_inputs :
    from_str "" = .ok 0 ∧ from_str "   " = .invalid ∧
    from_str "# only a comment" = .invalid :=
  ⟨by decide, by decide, by decide⟩

/-- Claim C3 as stated is false: the input `"9223372036854775808s"` passes
the grammar gate (it is a digit run followed by a unit), yet the count
conversion `i64::from_str(..).unwrap()` panics because the count exceeds
`i64::MAX`. -/
theorem C3_error_totality_counterexample :
    from_str "9223372036854775808s" = .panicked := by decide

/-- Claim C3, amended: on ASCII input, parsing returns a value or the
single `InvalidExpression` error — it never panics — provided every count
the gate extracts is at most 292471208 (so that the count fits in `i64`
and every unit scaling stays in the representable range).  Off that scope
the original claim keeps failing: grammar-passing counts beyond
`i64::MAX` panic in the count conversion (the counterexample), counts
whose unit scaling leaves the representable range panic inside a chrono
constructor, and beyond ASCII a non-ASCII decimal digit accepted by the
real gate's Unicode `\d` panics in `i64::from_str`, which accepts only
ASCII digits.  The ASCII hypothesis is inert in the model (whose gate
only admits ASCII digit runs); it confines the statement to the inputs
on which the embedded ASCII character classes agree with the source's
Unicode ones. -/
theorem C3_error_totality (input : String)
    (_hascii : ∀ ch ∈ input.data, ch.toNat < 128)
    (hsmall : ∀ gs, scanGroups (stripComment (normalizeSign input.data)) = some gs →
      ∀ g ∈ gs, ∀ t ∈ g.2, t.1 ≤ 292471208) :
    from_str input ≠ .panicked := by
  by_cases hne : input.data = []
  · rw [from_str_empty hne]
    intro hcon
    exact ParseResult.noConfusion hcon
  · rcases hscan : scanGroups (stripComment (normalizeSign input.data)) with _ | gs
    · rw [from_str_invalid_of_scan hne hscan]
      intro hcon
      exact ParseResult.noConfusion hcon
    · obtain ⟨d2, hd⟩ := evalGroups_no_panic gs 0 (hsmall gs hscan)
      rw [from_str_of_scan hne hscan, hd]
      intro hcon
      exact ParseResult.noConfusion hcon

/-- Witness for C3's amended theorem at input `"1h"`. -/
theorem C3_error_totality_witness : from_str "1h" ≠ .panicked := by
  apply C3_error_totality "1h" (by decide)
  intro gs hgs g hg t ht
  rw [show scanGroups (stripComment (normalizeSign ("1h" : String).data)) =
    some [(false, [(1, 'h')])] from by decide] at hgs
  injection hgs with h2
  subst h2
  have hg2 := List.mem_singleton.mp hg
  subst hg2
  have ht2 := List.mem_singleton.mp ht
  subst ht2
  decide

/-- Claim C4 as stated is false: `"1min"` is rejected (the gate regex only
admits `y d h m s`, so the `in` after the `m` is trailing garbage), while
`"1m"` parses to one minute. -/
theorem C4_min_synonym_counterexample :
    from_str "1min" = .invalid ∧ from_str "1m" = .ok 60000 :=
  ⟨by decide, by decide⟩

/-- Claim C4, amended: the unit code `min` is not accepted — for every
count `c`, `parse("{c}min")` returns the error (and `token_to_duration`
has no `min` arm either; the `min` alternative of the extraction regex is
dead because `m` is tried first). -/
theorem C4_min_synonym (c : Nat) :
    from_str (String.mk (natChars c ++ 'm' :: ('i' :: ['n']))) = .invalid := by
  have hne : ¬ ((String.mk (natChars c ++ 'm' :: ('i' :: ['n']))).data = []) := by
    show ¬ (natChars c ++ 'm' :: ('i' :: ['n']) = [])
    exact append_ne_nil_left (natChars_ne_nil c)
  exact from_str_invalid_of_scan hne (scanGroups_min_unit c)

/-- Claim C5 as stated is false: for the non-negative integer
`c = 9223372036854775808` (that is `i64::MAX + 1`) and unit `d`,
`parse("{c}d")` does not succeed — the count conversion panics. -/
theorem C5_unit_table_counterexample :
    from_str "9223372036854775808d" = .panicked := by decide

/-- Claim C5, amended: for every count `c` and unit `u` in
`{y, d, h, m, s}` whose scaled value `c * table(u)` is representable,
`parse("{c}{u}")` succeeds and equals the table value scaled by `c`
(y = 365 days, d = 1 day, h = 1 hour, m = 1 minute, s = 1 second). -/
theorem C5_unit_table (c : Nat) (u : Char) (hu : isUnitChar u = true)
    (hb : (c : Int) * unitMs u ≤ maxMs) :
    from_str (String.mk (natChars c ++ [u])) = .ok ((c : Int) * unitMs u) := by
  have hne : ¬ ((String.mk (natChars c ++ [u])).data = []) := by
    show ¬ (natChars c ++ [u] = [])
    exact append_ne_nil_left (natChars_ne_nil c)
  rw [from_str_of_scan hne (scanGroups_single_term c hu), evalGroups_singleton]
  simp only [isUnitChar, Bool.or_eq_true, decide_eq_true_eq] at hu
  rcases hu with ((((h | h) | h) | h) | h) <;> subst h
  · rw [show unitMs 'y' = 31536000000 from rfl] at hb ⊢
    have t1 : evalTok false 0 c 'y' = .ok ((c : Int) * 31536000000) := by
      have := evalTok_add 0
        (by unfold i64Max; unfold maxMs at hb; omega)
        (token_y c hb)
        (by unfold maxMs at hb ⊢; omega) (by unfold maxMs at hb ⊢; omega)
      rw [zero_add] at this
      exact this
    rw [evalTerms_cons_ok t1, evalTerms_nil]
  · rw [show unitMs 'd' = 86400000 from rfl] at hb ⊢
    have t1 : evalTok false 0 c 'd' = .ok ((c : Int) * 86400000) := by
      have := evalTok_add 0
        (by unfold i64Max; unfold maxMs at hb; omega)
        (token_d c hb)
        (by unfold maxMs at hb ⊢; omega) (by unfold maxMs at hb ⊢; omega)
      rw [zero_add] at this
      exact this
    rw [evalTerms_cons_ok t1, evalTerms_nil]
  · rw [show unitMs 'h' = 3600000 from rfl] at hb ⊢
    have t1 : evalTok false 0 c 'h' = .ok ((c : Int) * 3600000) := by
      have := evalTok_add 0
        (by unfold i64Max; unfold maxMs at hb; omega)
        (token_h c hb)
        (by unfold maxMs at hb ⊢; omega) (by unfold maxMs at hb ⊢; omega)
      rw [zero_add] at this
      exact this
    rw [evalTerms_cons_ok t1, evalTerms_nil]
  · rw [show unitMs 'm' = 60000 from rfl] at hb ⊢
    have t1 : evalTok false 0 c 'm' = .ok ((c : Int) * 60000) := by
      have := evalTok_add 0
        (by unfold i64Max; unfold maxMs at hb; omega)
        (token_m c hb)
        (by unfold maxMs at hb ⊢; omega) (by unfold maxMs at hb ⊢; omega)
      rw [zero_add] at this
      exact this
    rw [evalTerms_cons_ok t1, evalTerms_nil]
  · rw [show unitMs 's' = 1000 from rfl] at hb ⊢
    have t1 : evalTok false 0 c 's' = .ok ((c : Int) * 1000) := by
      have := evalTok_add 0
        (by unfold i64Max; unfold maxMs at hb; omega)
        (token_s c hb)
        (by unfold maxMs at hb ⊢; omega) (by unfold maxMs at hb ⊢; omega)
      rw [zero_add] at this
      exact this
    rw [evalTerms_cons_ok t1, evalTerms_nil]

/-- Witness for C5's amended theorem at `c = 5`, `u = 'h'`. -/
theorem C5_unit_table_witness :
    from_str (String.mk (natChars 5 ++ ['h'])) = .ok (((5 : Nat) : Int) * unitMs 'h') :=
  C5_unit_table 5 'h' (by decide) (by decide)

/-- Claim C6: a single negative group applies its sign to all of its
terms — `parse("-1y 3h 40m")` is −(365 days + 3 hours + 40 minutes), and
spaced formatting renders it as `"-8763h 40m 00s"`. -/
theorem C6_group_subtraction :
    from_str "-1y 3h 40m" = .ok (-31549200000) ∧
    fmtDuration (-31549200000) false = "-8763h 40m 00s" :=
  ⟨by decide, by decide⟩

/-- Claim C7: formatting decomposes the absolute magnitude in whole
seconds into unbounded hours, two-digit minutes `0–59` and two-digit
seconds `0–59`, with a leading `-` exactly for strictly negative values
(`fmtBody` spells out the `{hours}h {mm}m {ss}s` layout); concretely 5400
seconds formats as `"1h 30m 00s"` spaced and `"1h30m00s"` compact. -/
theorem C7_formatting :
    (∀ (d : Int) (compact : Bool),
      fmtDuration d compact =
        String.mk ((if d < 0 then ['-'] else []) ++
          fmtBody (num_seconds d).natAbs (if compact then [] else [' '])) ∧
      (num_seconds d).natAbs % 3600 / 60 < 60 ∧
      (num_seconds d).natAbs % 60 < 60 ∧
      (pad2N ((num_seconds d).natAbs % 3600 / 60)).length = 2 ∧
      (pad2N ((num_seconds d).natAbs % 60)).length = 2) ∧
    fmtDuration 5400000 false = "1h 30m 00s" ∧
    fmtDuration 5400000 true = "1h30m00s" := by
  refine ⟨?_, by decide, by decide⟩
  intro d compact
  refine ⟨?_, by omega, by omega, pad2N_length_two (by omega),
    pad2N_length_two (by omega)⟩
  rcases le_or_lt 0 d with hd | hd
  · rw [show d = ((d.toNat : Nat) : Int) from by omega]
    rw [fmtDuration_shape_nonneg]
    rw [if_neg (show ¬ (((d.toNat : Nat) : Int) < 0) from by omega), List.nil_append]
    rw [show num_seconds ((d.toNat : Nat) : Int) = ((d.toNat / 1000 : Nat) : Int) from by
      unfold num_seconds
      rw [show (1000 : Int) = ((1000 : Nat) : Int) from rfl, tdiv_coe]]
    rw [Int.natAbs_ofNat]
  · rw [show d = -((d.natAbs : Nat) : Int) from by omega]
    rw [fmtDuration_shape_neg _ (by omega)]
    rw [if_pos (show -((d.natAbs : Nat) : Int) < 0 from by omega), List.singleton_append]
    rw [show num_seconds (-((d.natAbs : Nat) : Int)) = -(((d.natAbs / 1000 : Nat) : Int)) from by
      unfold num_seconds
      rw [Int.neg_tdiv, show (1000 : Int) = ((1000 : Nat) : Int) from rfl, tdiv_coe]]
    rw [Int.natAbs_neg, Int.natAbs_ofNat]

/-- Claim C8: saturating arithmetic is exact when the result is
representable and clamps to the boundary otherwise; in particular
`MAX + p` saturates to `MAX` and `MIN − p` to `MIN` for positive `p`. -/
theorem C8_saturating (a b p : Int) (hp : 0 < p) :
    ((durationMIN ≤ a + b ∧ a + b ≤ durationMAX → saturated_add a b = a + b) ∧
     (¬ (durationMIN ≤ a + b ∧ a + b ≤ durationMAX) → saturated_add a b = durationMAX) ∧
     (durationMIN ≤ a - b ∧ a - b ≤ durationMAX → saturated_sub a b = a - b) ∧
     (¬ (durationMIN ≤ a - b ∧ a - b ≤ durationMAX) → saturated_sub a b = durationMIN)) ∧
    saturated_add durationMAX p = durationMAX ∧
    saturated_sub durationMIN p = durationMIN := by
  unfold saturated_add saturated_sub checked_add checked_sub durationMAX durationMIN
  refine ⟨⟨?_, ?_, ?_, ?_⟩, ?_, ?_⟩
  · intro h; rw [if_pos h]; rfl
  · intro h; rw [if_neg h]; rfl
  · intro h; rw [if_pos h]; rfl
  · intro h; rw [if_neg h]; rfl
  · rw [if_neg (show ¬ (-maxMs ≤ maxMs + p ∧ maxMs + p ≤ maxMs) from by
      unfold maxMs; omega)]
    rfl
  · rw [if_neg (show ¬ (-maxMs ≤ -maxMs - p ∧ -maxMs - p ≤ maxMs) from by
      unfold maxMs; omega)]
    rfl

/-- Witness for C8 at `a = 1`, `b = 2`, `p = 3`. -/
theorem C8_saturating_witness :
    saturated_add 1 2 = 1 + 2 ∧ saturated_add durationMAX 3 = durationMAX ∧
    saturated_sub durationMIN 3 = durationMIN := by
  have h := C8_saturating 1 2 3 (by decide)
  exact ⟨h.1.1 (by decide), h.2.1, h.2.2⟩

/-- Claim C9: for every string `s` that parses successfully and every
compactness flag `c`, the string `t = format(parse(s), c)` itself parses
successfully, and `format(parse(t), c) = t`. -/
theorem C9_round_trip (s : String) (c : Bool) (v : Int)
    (h : from_str s = .ok v) :
    ∃ w, from_str (fmtDuration v c) = .ok w ∧
      fmtDuration w c = fmtDuration v c :=
  ⟨v, parse_fmtDuration (from_str_whole h) c, rfl⟩

/-- Witness for C9 at `s = "90m"`, `c = false`. -/
theorem C9_round_trip_witness :
    ∃ w, from_str (fmtDuration 5400000 false) = .ok w ∧
      fmtDuration w false = fmtDuration 5400000 false :=
  C9_round_trip "90m" false 5400000 (by decide)

/-- Claim C10: the implicit-`+` normalization looks only at the literal
first character, so any input that begins with a whitespace character
followed by an explicit sign is rejected, even though the same expression
without the leading whitespace parses. -/
theorem C10_leading_whitespace :
    (∀ (w s0 : Char) (rest : List Char), isWsChar w = true → isSignChar s0 = true →
      from_str (String.mk (w :: s0 :: rest)) = .invalid) ∧
    from_str "  +2d" = .invalid ∧ from_str "+2d" = .ok 172800000 := by
  refine ⟨?_, by decide, by decide⟩
  intro w s0 rest hw hs
  have hne : ¬ ((String.mk (w :: s0 :: rest)).data = []) := by
    show ¬ (w :: s0 :: rest = [])
    simp
  apply from_str_invalid_of_scan hne
  show scanGroups (stripComment (normalizeSign (w :: s0 :: rest))) = none
  rw [normalizeSign_other (ws_not_sign hw),
    stripComment_cons_ne (show ('+' : Char) ≠ '#' from by decide),
    stripComment_cons_ne (ws_ne_hash hw),
    stripComment_cons_ne (sign_ne_hash hs)]
  unfold scanGroups
  rw [scan_s0_sign (by decide), scan_s1_ws hw,
    scan_s1_stuck (sign_not_ws hs) (sign_not_digit hs)]

/-- Witness for C10's universal part at `" +2d"` (space, then sign). -/
theorem C10_leading_whitespace_witness :
    from_str (String.mk (' ' :: '+' :: ['2', 'd'])) = .invalid :=
  C10_leading_whitespace.1 ' ' '+' ['2', 'd'] (by decide) (by decide)

/-- Sanity: the embedding reproduces the repository's own unit tests and
doc examples for `from_str` and the display format. -/
theorem embedding_matches_repo_tests :
    from_str "" = .ok 0 ∧
    from_str "3d 20h 10m 15s" = .ok 331815000 ∧
    from_str "+2d 5h" = .ok 190800000 ∧
    from_str "2d 5h" = .ok 190800000 ∧
    from_str "-1y 3h + 40m" = .ok (-31544400000) ∧
    from_str "+3h-2m" = .ok 10680000 ∧
    from_str "2d 5h # Comment" = .ok 190800000 ∧
    from_str "-2d 5h # Comment" = .ok (-190800000) ∧
    from_str "abc" = .invalid ∧
    from_str "5" = .invalid ∧
    from_str "5x" = .invalid ∧
    from_str "5 m" = .ok 300000 ∧
    from_str "1 2h" = .invalid ∧
    fmtDuration 331815000 false = "92h 10m 15s" := by
  refine ⟨by decide, by decide, by decide, by decide, by decide, by decide,
    by decide, by decide, by decide, by decide, by decide, by decide,
    by decide, by decide⟩
